import Mathlib

/-!
Verification of the macOS multiboot USB creator against its specification.

This file gives a shallow embedding of the parts of the program that the
claims talk about:

* `core/config.py` : the byte-size constants and the safety margin;
* `utils/size.py` : `calculate_size_with_margin`, `calculate_partition_size_bytes`
  and `format_size_for_diskutil`;
* `disk/partitioning.py` : `validate_partition_sizes` and the construction of the
  `diskutil partitionDisk` command inside `partition_disk`;
* `disk/management.py` : `_extract_process_info` (the regex search) and the
  raise-or-warn decision of `unmount_disk`;
* `utils/progress.py` : `ProgressBar.update`, `ProgressBar.parse_line` and the
  time-based display percentage of the animation thread;
* `utils/commands.py` : `read_remaining_output`;
* `main.py` : the order of the unmount / validate / partition / cleanup steps.

Machine-level conventions of the embedding:

* Python integers are unbounded, so they are modelled by `Nat` (all sizes in the
  program are byte counts produced by `os.stat` / `diskutil`, hence non-negative).
* The two float divisions in `utils/size.py` divide an `int` by a power of two
  (`BYTES_PER_MB = 2^20`, `BYTES_PER_GB = 2^30`).  For operands below `2^53`
  such a division is exact in IEEE-754 double precision, and Python's `int()`
  truncation of a non-negative float is the floor, so `int(m / 2**k)` is exactly
  the natural-number division `m / 2^k`.  Theorems quantifying over all byte
  counts therefore carry the hypothesis that the margined size stays below
  `2^53`, which is where the `Nat` model is provably faithful to CPython.
* A Python dict access that can fail (`inst["size_bytes"]`) is modelled with
  `Option`, a value of unexpected dynamic type by the `PyVal.str` constructor,
  and the raised `KeyError` / `TypeError` by an `Except PyExc` computation.
-/

set_option linter.unusedVariables false

namespace Multiboot

/-! ## core/config.py -/

def BYTES_PER_KB : Nat := 1024

def BYTES_PER_MB : Nat := BYTES_PER_KB * 1024

def BYTES_PER_GB : Nat := BYTES_PER_MB * 1024

def MARGIN_SIZE_MB : Nat := 500

/-! ## Python string helpers

`str.lower`, `str.strip`, `needle in haystack` and `str.split("\n")` restricted
to the ASCII texts the program manipulates. -/

/-- Python `needle in haystack` on character lists: some suffix of `hay`
starts with `needle`. -/
def containsSub (hay needle : List Char) : Bool :=
  match hay with
  | [] => needle.isEmpty
  | _ :: t => needle.isPrefixOf hay || containsSub t needle

/-- Python `needle in haystack` for strings. -/
def pyContains (hay needle : String) : Bool :=
  containsSub hay.data needle.data

/-- Python `str.lower()` (ASCII case folding, which covers every keyword the
program uses). -/
def pyLower (s : String) : String :=
  String.mk (s.data.map Char.toLower)

/-- Python `str.strip()` on character lists: drop whitespace from both ends. -/
def stripChars (cs : List Char) : List Char :=
  ((cs.dropWhile Char.isWhitespace).reverse.dropWhile Char.isWhitespace).reverse

/-- Python `str.strip()`. -/
def pyStrip (s : String) : String :=
  String.mk (stripChars s.data)

/-- Python `s.split("\n")` on character lists.  `[] ↦ [[]]`, and each `'\n'`
starts a new chunk, exactly like `str.split` with an explicit separator. -/
def splitNL : List Char → List (List Char)
  | [] => [[]]
  | c :: t =>
    match splitNL t with
    | [] => [[]]
    | h :: r => if c = '\n' then [] :: h :: r else (c :: h) :: r

/-! ## Decimal rendering

Python's `f"{n}"` for a non-negative `int` prints the usual base-10 digits.
`natDigits` is that digit string; `parseDigits` reads one back (used to state
the round-trip claims about `format_size_for_diskutil`). -/

/-- The base-10 digit characters of `n`, most significant first (the rendering
of a non-negative Python `int` in an f-string). -/
def natDigits (n : Nat) : List Char :=
  if h : n < 10 then [Char.ofNat (48 + n)]
  else natDigits (n / 10) ++ [Char.ofNat (48 + n % 10)]
  termination_by n
  decreasing_by
    exact Nat.div_lt_self (Nat.lt_of_lt_of_le (by decide) (Nat.le_of_not_lt h)) (by decide)

/-- Numeric value of one digit character. -/
def digitVal (c : Char) : Nat := c.toNat - 48

/-- Parse a non-empty all-digit character list as a base-10 number. -/
def parseDigits (cs : List Char) : Option Nat :=
  if cs ≠ [] ∧ cs.all Char.isDigit then
    some (cs.foldl (fun a c => a * 10 + digitVal c) 0)
  else none

/-! ## utils/size.py -/

/-- `calculate_size_with_margin`: add the 500 MB safety margin. -/
def calculate_size_with_margin (size_bytes : Nat) : Nat :=
  size_bytes + MARGIN_SIZE_MB * BYTES_PER_MB

/-- `calculate_partition_size_bytes`: margined size rounded up to a whole GB
(`int(size_gb + 1) * BYTES_PER_GB`, with `int(m/2^30 + 1) = m / 2^30 + 1` in
the exact range of the float division). -/
def calculate_partition_size_bytes (size_bytes : Nat) : Nat :=
  (calculate_size_with_margin size_bytes / BYTES_PER_GB + 1) * BYTES_PER_GB

/-- `format_size_for_diskutil`: `f"{int(size_mb)}M"` when the margined size is
under one GB, otherwise `f"{int(size_gb) + 1}G"`. -/
def format_size_for_diskutil (size_bytes : Nat) : String :=
  if calculate_size_with_margin size_bytes < BYTES_PER_GB then
    String.mk (natDigits (calculate_size_with_margin size_bytes / BYTES_PER_MB) ++ ['M'])
  else
    String.mk (natDigits (calculate_size_with_margin size_bytes / BYTES_PER_GB + 1) ++ ['G'])

/-- Read a diskutil size token back to bytes, as the specification prescribes:
`"<n>M"` is `n * 2^20` bytes and `"<n>G"` is `n * 2^30` bytes. -/
def parseDiskutilToken (s : String) : Option Nat :=
  if s.data.getLast? = some 'M' then (parseDigits s.data.dropLast).map (· * BYTES_PER_MB)
  else if s.data.getLast? = some 'G' then (parseDigits s.data.dropLast).map (· * BYTES_PER_GB)
  else none

/-! ## Python dynamic values and exceptions

`disk_info.get("TotalSize", 0)` and `inst["size_bytes"]` can hand back a
missing key or a value of the wrong dynamic type; arithmetic or comparison on
a non-int then raises `TypeError`, a missing key raises `KeyError`. -/

/-- A Python value sitting in a dict slot that the program expects to be an
`int`: either an actual non-negative integer or some other object. -/
inductive PyVal where
  | int (n : Nat)
  | str (s : String)
  deriving DecidableEq, Repr

/-- The two exception classes `validate_partition_sizes` catches. -/
inductive PyExc where
  | keyError
  | typeError
  deriving DecidableEq, Repr

/-- A dict access `inst["size_bytes"]` followed by use in arithmetic: a missing
key raises `KeyError`, a non-int raises `TypeError` at the arithmetic step. -/
def getIntField : Option PyVal → Except PyExc Nat
  | none => .error .keyError
  | some (.str _) => .error .typeError
  | some (.int n) => .ok n

/-! ## disk/partitioning.py -/

/-- One entry of the `InstallerInfo` list.  `size_bytes` is the dict slot,
kept as `Option PyVal` so the `KeyError`/`TypeError` paths are expressible. -/
structure MInstaller where
  name : String
  volume : String
  size_bytes : Option PyVal
  deriving DecidableEq, Repr

/-- A well-formed installer entry carrying the integer byte count `s`. -/
def mkInst (s : Nat) : MInstaller :=
  { name := "", volume := "", size_bytes := some (.int s) }

/-- Outcome of `validate_partition_sizes`: success, the sizing `ValueError`
(with the needed and available byte counts printed in the message), or the
caught `KeyError`/`TypeError` that is downgraded to a warning. -/
inductive VResult where
  | ok
  | sizeError (needed avail : Nat)
  | skipped (e : PyExc)
  deriving DecidableEq, Repr

/-- `sum(calculate_partition_size_bytes(inst["size_bytes"]) for inst in xs)`:
the generator is consumed left to right, so the first bad entry raises. -/
def sumFixedPartitions : List MInstaller → Except PyExc Nat
  | [] => .ok 0
  | i :: rest =>
    match getIntField i.size_bytes with
    | .error e => .error e
    | .ok v =>
      match sumFixedPartitions rest with
      | .error e => .error e
      | .ok r => .ok (calculate_partition_size_bytes v + r)

/-- `validate_partition_sizes` given the already-retrieved `disk_info` value of
`"TotalSize"` (`disk_info.get("TotalSize", 0)` defaults a missing key to `0`).
The body runs under `try ... except (KeyError, TypeError)`, which turns either
exception into a logged warning and a normal return (`VResult.skipped`). -/
def validate_partition_sizes (totalSize : Option PyVal)
    (installers : List MInstaller) : VResult :=
  match sumFixedPartitions installers.dropLast with
  | .error e => .skipped e
  | .ok total_needed =>
    match getIntField (some (totalSize.getD (.int 0))) with
    | .error e => .skipped e
    | .ok disk_size =>
      if total_needed > disk_size then .sizeError total_needed disk_size else .ok

/-- The per-installer arguments of the `diskutil partitionDisk` command built
by the loop in `partition_disk`: every installer contributes
`["JHFS+", volume, token]`, where the last installer's token is `"0b"` (take
the remaining space, its size is never read) and every earlier installer's
token is `format_size_for_diskutil(inst["size_bytes"])`. -/
def partitionArgs : List MInstaller → Except PyExc (List String)
  | [] => .ok []
  | [i] => .ok ["JHFS+", i.volume, "0b"]
  | i :: rest =>
    match getIntField i.size_bytes with
    | .error e => .error e
    | .ok s =>
      match partitionArgs rest with
      | .error e => .error e
      | .ok tail => .ok (["JHFS+", i.volume, format_size_for_diskutil s] ++ tail)

/-- What `partition_disk` does after being called: the sizing `ValueError`
escapes, an uncaught `KeyError`/`TypeError` from building the command escapes,
otherwise the destructive `diskutil partitionDisk` command is issued.
(The `remaining_size_str` block between validation and the loop only computes a
logged string and catches its own `KeyError`/`TypeError`, so it never changes
the outcome.) -/
inductive PDOutcome where
  | sizeAbort (needed avail : Nat)
  | raised (e : PyExc)
  | issued (cmd : List String)
  deriving DecidableEq, Repr

/-- `partition_disk` up to the point where the partition command is handed to
`run_command_with_progress`. -/
def partition_disk_model (target_disk : String) (totalSize : Option PyVal)
    (installers : List MInstaller) : PDOutcome :=
  match validate_partition_sizes totalSize installers with
  | .sizeError n a => .sizeAbort n a
  | _ =>
    match partitionArgs installers with
    | .error e => .raised e
    | .ok args => .issued (["diskutil", "partitionDisk", target_disk, "GPT"] ++ args)

/-! ## disk/management.py : the in-use regex -/

/-- The literal head of the pattern `in use by process (\d+) \(([^)]+)\)`. -/
def inUseLiteral : List Char := "in use by process ".data

/-- Try to match the whole regex at the head of `cs`, returning the two capture
groups `(digits, name)`.  `(\d+)` takes the maximal digit run (backtracking
cannot help, the next token is a space), `([^)]+)` takes the maximal run of
non-`)` characters (the next token is `)`). -/
def matchInUseAt (cs : List Char) : Option (List Char × List Char) :=
  if inUseLiteral.isPrefixOf cs then
    let afterLit := cs.drop inUseLiteral.length
    let ds := afterLit.takeWhile Char.isDigit
    let r1 := afterLit.dropWhile Char.isDigit
    if ds = [] then none
    else if (" (".data).isPrefixOf r1 then
      let afterParen := r1.drop 2
      let nm := afterParen.takeWhile (fun c => c ≠ ')')
      let r3 := afterParen.dropWhile (fun c => c ≠ ')')
      if nm = [] then none
      else
        match r3 with
        | ')' :: _ => some (ds, nm)
        | _ => none
    else none
  else none

/-- `re.search`: the match at the leftmost position where one exists. -/
def searchInUse : List Char → Option (List Char × List Char)
  | [] => none
  | c :: t =>
    match matchInUseAt (c :: t) with
    | some r => some r
    | none => searchInUse t

/-- `_extract_process_info`: `(process_name, process_id)` from the first match
of the pattern, i.e. `(group(2), group(1))`, or `(None, None)`. -/
def extract_process_info (error_message : String) :
    Option String × Option String :=
  match searchInUse error_message.data with
  | some (ds, nm) => (some (String.mk nm), some (String.mk ds))
  | none => (none, none)

/-! ## disk/management.py : unmount_disk -/

/-- `str(CommandError(cmd, returncode))`, built by `CommandError.__init__`. -/
def commandErrorStr (cmd : List String) (returncode : Int) : String :=
  "Commande échouée: " ++ String.intercalate " " cmd ++
    " (code: " ++ toString returncode ++ ")"

/-- The text `unmount_disk` inspects:
`f"{e.stderr or ''} {str(e)}".strip()`. -/
def unmountErrorMsg (stderr : Option String) (cmd : List String)
    (returncode : Int) : String :=
  pyStrip (stderr.getD "" ++ " " ++ commandErrorStr cmd returncode)

/-- What `unmount_disk` does when `diskutil unmountDisk` fails. -/
inductive UnmountOutcome where
  | raisedInUse (msg : String)
  | warnedAndContinued
  deriving DecidableEq, Repr

/-- The raise-or-warn decision of `unmount_disk` on a failed unmount: a fatal
`CommandError` exactly when the error text contains `"in use by process"` or
`"Couldn't unmount"` as a substring, otherwise a warning and a normal return. -/
def unmount_disk_on_failure (target_disk : String) (stderr : Option String)
    (cmd : List String) (returncode : Int) : UnmountOutcome :=
  let error_msg := unmountErrorMsg stderr cmd returncode
  if pyContains error_msg "in use by process" || pyContains error_msg "Couldn't unmount" then
    .raisedInUse ("Disque utilisé par un processus. " ++ error_msg)
  else
    .warnedAndContinued

/-! ## utils/progress.py -/

/-- One `(keyword, percent, message)` progress rule. -/
structure Rule where
  keyword : String
  percent : Nat
  message : String
  deriving DecidableEq, Repr

/-- The mutable pair `(progress_percent[0], progress_message[0])`. -/
structure PBState where
  percent : Nat
  message : String
  deriving DecidableEq, Repr

/-- The freshly constructed bar: percent 0, message `"Démarrage..."`. -/
def pbInit : PBState := { percent := 0, message := "Démarrage..." }

/-- `ProgressBar.update`: the stored percent never regresses
(`max(self.progress_percent[0], percent)`), the message is overwritten. -/
def PBState.update (st : PBState) (percent : Nat) (message : String) : PBState :=
  { percent := max st.percent percent, message := message }

/-- `ProgressBar.parse_line`: scan the rules in order, fire `update` on the
first rule whose keyword occurs in the lower-cased line, then stop. -/
def PBState.parse_line (st : PBState) (line : String) : List Rule → PBState
  | [] => st
  | r :: rest =>
    if pyContains (pyLower line) r.keyword then st.update r.percent r.message
    else st.parse_line line rest

/-- The time-based estimate of the animation thread:
`min(int((elapsed / self.time_estimate) * 90), 90)` (elapsed in seconds). -/
def timeBasedPercent (elapsed timeEstimate : Nat) : Nat :=
  min (elapsed * 90 / timeEstimate) 90

/-- The percent the animation thread actually displays: the stored percent,
lifted to the time-based estimate when the stored percent is under 90, more
than 5 seconds elapsed and the estimate is ahead. -/
def shownPercent (st : PBState) (elapsed timeEstimate : Nat) : Nat :=
  if st.percent < 90 ∧ 5 < elapsed then
    max st.percent (timeBasedPercent elapsed timeEstimate)
  else st.percent

/-- An event in the life of one progress bar: an output line fed to
`parse_line`, or one refresh of the animation thread at a given elapsed time. -/
inductive PBEvent where
  | line (s : String)
  | tick (elapsed : Nat)
  deriving DecidableEq, Repr

/-- The elapsed times of the ticks of an event sequence, in order. -/
def tickTimes : List PBEvent → List Nat
  | [] => []
  | .line _ :: rest => tickTimes rest
  | .tick e :: rest => e :: tickTimes rest

/-- Run a progress bar over an event sequence and collect the percent displayed
at each tick. -/
def runPB (rules : List Rule) (timeEstimate : Nat) :
    PBState → List PBEvent → List Nat
  | _, [] => []
  | st, .line s :: rest => runPB rules timeEstimate (st.parse_line s rules) rest
  | st, .tick e :: rest =>
    shownPercent st e timeEstimate :: runPB rules timeEstimate st rest

/-! ## utils/commands.py : read_remaining_output -/

/-- `read_remaining_output`.  `remaining = none` models
`process.communicate(timeout=...)` raising `TimeoutExpired` (swallowed by the
`pass`); `some rem` is the drained text.  The whole body is guarded by
`if not output_lines:`. -/
def read_remaining_output (remaining : Option String)
    (output_lines : List String) : List String :=
  if output_lines.isEmpty then
    match remaining with
    | none => output_lines
    | some rem =>
      if rem = "" then output_lines
      else
        output_lines ++
          (((splitNL rem.data).map stripChars).filter (fun l => l ≠ [])).map String.mk
  else output_lines

/-! ## main.py : order of the destructive steps -/

/-- The externally visible steps of `main` from the erase confirmation on. -/
inductive MEvent where
  | unmountDiskCall
  | validationRan (r : VResult)
  | partitionCmd (cmd : List String)
  | restoreDiskCall
  | createMediaCall
  deriving DecidableEq, Repr

/-- `main` after `confirm_disk_erasure`: unmount, set `partitioning_started`,
call `partition_disk` (which validates first, then issues the command), then
`create_install_media`; every exception raised after `partitioning_started`
is routed through `_handle_error`, which calls `cleanup_disk_if_needed` and
hence `restore_disk`.  An unmount failure that raises happens while
`partitioning_started` is still `False`, so it aborts without restore. -/
def main_run (target_disk : String) (totalSize : Option PyVal)
    (installers : List MInstaller) (confirmed : Bool)
    (unmountRaises : Bool) : List MEvent :=
  if !confirmed then []
  else if unmountRaises then [.unmountDiskCall]
  else
    .unmountDiskCall ::
      (let v := validate_partition_sizes totalSize installers
       .validationRan v ::
         match v with
         | .sizeError _ _ => [.restoreDiskCall]
         | _ =>
           match partitionArgs installers with
           | .error _ => [.restoreDiskCall]
           | .ok args =>
             [.partitionCmd (["diskutil", "partitionDisk", target_disk, "GPT"] ++ args),
              .createMediaCall])

/-! ## Lemmas: decimal rendering round-trips -/

theorem natDigits_of_lt (n : Nat) (h : n < 10) : natDigits n = [Char.ofNat (48 + n)] := by
  rw [natDigits]
  exact dif_pos h

theorem natDigits_of_ge (n : Nat) (h : ¬ n < 10) :
    natDigits n = natDigits (n / 10) ++ [Char.ofNat (48 + n % 10)] := by
  rw [natDigits]
  exact dif_neg h

theorem digitVal_ofNat (r : Nat) (h : r < 10) : digitVal (Char.ofNat (48 + r)) = r := by
  interval_cases r <;> decide

theorem isDigit_ofNat (r : Nat) (h : r < 10) : (Char.ofNat (48 + r)).isDigit = true := by
  interval_cases r <;> decide

theorem natDigits_ne_nil (n : Nat) : natDigits n ≠ [] := by
  by_cases h : n < 10
  · rw [natDigits_of_lt n h]
    simp
  · rw [natDigits_of_ge n h]
    simp

theorem natDigits_all_isDigit (n : Nat) : (natDigits n).all Char.isDigit = true := by
  induction n using Nat.strong_induction_on with
  | _ n ih =>
    by_cases h : n < 10
    · rw [natDigits_of_lt n h]
      simp [isDigit_ofNat n h]
    · rw [natDigits_of_ge n h]
      have hd : n / 10 < n := Nat.div_lt_self (by omega) (by omega)
      simp [List.all_append, ih (n / 10) hd, isDigit_ofNat (n % 10) (Nat.mod_lt n (by omega))]

theorem digitsVal_natDigits (n : Nat) :
    (natDigits n).foldl (fun a c => a * 10 + digitVal c) 0 = n := by
  induction n using Nat.strong_induction_on with
  | _ n ih =>
    by_cases h : n < 10
    · rw [natDigits_of_lt n h]
      simp [digitVal_ofNat n h]
    · rw [natDigits_of_ge n h, List.foldl_append]
      have hd : n / 10 < n := Nat.div_lt_self (by omega) (by omega)
      rw [ih (n / 10) hd]
      simp only [List.foldl_cons, List.foldl_nil]
      rw [digitVal_ofNat (n % 10) (Nat.mod_lt n (by omega))]
      omega

theorem parseDigits_natDigits (n : Nat) : parseDigits (natDigits n) = some n := by
  unfold parseDigits
  rw [if_pos ⟨natDigits_ne_nil n, natDigits_all_isDigit n⟩, digitsVal_natDigits n]

/-! ## Lemmas: `format_size_for_diskutil` round-trips -/

theorem parseDiskutilToken_concat_M (ds : List Char) :
    parseDiskutilToken (String.mk (ds ++ ['M'])) = (parseDigits ds).map (· * BYTES_PER_MB) := by
  unfold parseDiskutilToken
  simp [List.getLast?_concat, List.dropLast_concat]

theorem parseDiskutilToken_concat_G (ds : List Char) :
    parseDiskutilToken (String.mk (ds ++ ['G'])) = (parseDigits ds).map (· * BYTES_PER_GB) := by
  unfold parseDiskutilToken
  simp [List.getLast?_concat, List.dropLast_concat]

theorem parse_format_of_lt (b : Nat)
    (h : calculate_size_with_margin b < BYTES_PER_GB) :
    parseDiskutilToken (format_size_for_diskutil b) =
      some (calculate_size_with_margin b / BYTES_PER_MB * BYTES_PER_MB) := by
  unfold format_size_for_diskutil
  rw [if_pos h, parseDiskutilToken_concat_M, parseDigits_natDigits]
  rfl

theorem parse_format_of_ge (b : Nat)
    (h : ¬ calculate_size_with_margin b < BYTES_PER_GB) :
    parseDiskutilToken (format_size_for_diskutil b) =
      some ((calculate_size_with_margin b / BYTES_PER_GB + 1) * BYTES_PER_GB) := by
  unfold format_size_for_diskutil
  rw [if_neg h, parseDiskutilToken_concat_G, parseDigits_natDigits]
  rfl

theorem format_lastChar_of_lt (b : Nat)
    (h : calculate_size_with_margin b < BYTES_PER_GB) :
    (format_size_for_diskutil b).data.getLast? = some 'M' := by
  unfold format_size_for_diskutil
  rw [if_pos h]
  exact List.getLast?_concat _

theorem format_lastChar_of_ge (b : Nat)
    (h : ¬ calculate_size_with_margin b < BYTES_PER_GB) :
    (format_size_for_diskutil b).data.getLast? = some 'G' := by
  unfold format_size_for_diskutil
  rw [if_neg h]
  exact List.getLast?_concat _

theorem lt_div_succ_mul (m k : Nat) (hk : 0 < k) : m < (m / k + 1) * k := by
  have h := Nat.lt_div_mul_add (a := m) hk
  calc m < m / k * k + k := h
    _ = (m / k + 1) * k := by ring

theorem bytes_per_mb_eq : BYTES_PER_MB = 1048576 := by
  norm_num [BYTES_PER_MB, BYTES_PER_KB]

theorem bytes_per_gb_eq : BYTES_PER_GB = 1073741824 := by
  norm_num [BYTES_PER_GB, bytes_per_mb_eq]

theorem margin_eq (b : Nat) : calculate_size_with_margin b = b + 524288000 := by
  norm_num [calculate_size_with_margin, MARGIN_SIZE_MB, bytes_per_mb_eq]

theorem natDigits_two_digit (n : Nat) (h1 : 10 ≤ n) (h2 : n < 100) :
    natDigits n = [Char.ofNat (48 + n / 10), Char.ofNat (48 + n % 10)] := by
  rw [natDigits_of_ge n (by omega), natDigits_of_lt (n / 10) (by omega)]
  rfl

/-- Claim C3 (counterexample): for byte count 1 the margined size is
`524288001` bytes, under one GB, so the token is `"500M"`; parsing it back
gives `524288000` bytes, which is strictly less than the margined size.  The
claim asserts the parsed-back size is always at least the margined size. -/
theorem c3_counterexample :
    parseDiskutilToken (format_size_for_diskutil 1) = some 524288000 ∧
    524288000 < calculate_size_with_margin 1 := by
  have h : calculate_size_with_margin 1 < BYTES_PER_GB := by
    norm_num [margin_eq, bytes_per_gb_eq]
  constructor
  · rw [parse_format_of_lt 1 h, margin_eq, bytes_per_mb_eq]
  · norm_num [margin_eq]

/-- Claim C3 (amended): for every byte count in the range where the float
divisions of the source are exact, the `"M"` form is used exactly when the
margined size is below 1 GB; in the `"G"` form the parsed-back size is the
margined size rounded up to a whole GB plus one GB step, hence at least the
margined size; in the `"M"` form the parsed-back size is the margined size
rounded DOWN to a whole MB, hence at most the margined size (and strictly
below it whenever the margined size is not a multiple of 1 MB). -/
theorem c3_roundtrip_amended (b : Nat)
    (hdom : calculate_size_with_margin b < 2 ^ 53) :
    (((format_size_for_diskutil b).data.getLast? = some 'M') ↔
        calculate_size_with_margin b < BYTES_PER_GB) ∧
    (BYTES_PER_GB ≤ calculate_size_with_margin b →
      parseDiskutilToken (format_size_for_diskutil b) =
          some ((calculate_size_with_margin b / BYTES_PER_GB + 1) * BYTES_PER_GB) ∧
        calculate_size_with_margin b ≤
          (calculate_size_with_margin b / BYTES_PER_GB + 1) * BYTES_PER_GB) ∧
    (calculate_size_with_margin b < BYTES_PER_GB →
      parseDiskutilToken (format_size_for_diskutil b) =
          some (calculate_size_with_margin b / BYTES_PER_MB * BYTES_PER_MB) ∧
        calculate_size_with_margin b / BYTES_PER_MB * BYTES_PER_MB ≤
          calculate_size_with_margin b) := by
  refine ⟨?_, ?_, ?_⟩
  · by_cases hb : calculate_size_with_margin b < BYTES_PER_GB
    · simp [format_lastChar_of_lt b hb, hb]
    · simp [format_lastChar_of_ge b hb, hb]
  · intro h
    refine ⟨parse_format_of_ge b (by omega), ?_⟩
    exact le_of_lt (lt_div_succ_mul _ _ (by norm_num [bytes_per_gb_eq]))
  · intro h
    exact ⟨parse_format_of_lt b h, Nat.div_mul_le_self _ _⟩

/-- Witness for the amended C3 theorem at byte count 0 (margined size 500 MB,
`"M"` form, parse-back exact). -/
theorem c3_witness :
    parseDiskutilToken (format_size_for_diskutil 0) =
        some (calculate_size_with_margin 0 / BYTES_PER_MB * BYTES_PER_MB) ∧
      calculate_size_with_margin 0 / BYTES_PER_MB * BYTES_PER_MB ≤
        calculate_size_with_margin 0 :=
  (c3_roundtrip_amended 0 (by norm_num [margin_eq])).2.2
    (by norm_num [margin_eq, bytes_per_gb_eq])

theorem format_12GB : format_size_for_diskutil (12 * BYTES_PER_GB) = "13G" := by
  unfold format_size_for_diskutil
  rw [if_neg (by norm_num [margin_eq, bytes_per_gb_eq])]
  rw [show calculate_size_with_margin (12 * BYTES_PER_GB) / BYTES_PER_GB + 1 = 13 from by
    norm_num [margin_eq, bytes_per_gb_eq]]
  rw [natDigits_two_digit 13 (by norm_num) (by norm_num)]
  decide

theorem format_14GB : format_size_for_diskutil (14 * BYTES_PER_GB) = "15G" := by
  unfold format_size_for_diskutil
  rw [if_neg (by norm_num [margin_eq, bytes_per_gb_eq])]
  rw [show calculate_size_with_margin (14 * BYTES_PER_GB) / BYTES_PER_GB + 1 = 15 from by
    norm_num [margin_eq, bytes_per_gb_eq]]
  rw [natDigits_two_digit 15 (by norm_num) (by norm_num)]
  decide

/-- Claim C7: for installers of exactly 12 GB and 14 GB the diskutil tokens
are `"13G"` and `"15G"`; with two installers the partition command carries
the explicit `"13G"` token only for the first installer and the `"0b"`
remaining-space marker for the last, and validation passes on a 500 GB disk. -/
theorem c7_two_installer_scenario :
    format_size_for_diskutil (12 * BYTES_PER_GB) = "13G" ∧
    format_size_for_diskutil (14 * BYTES_PER_GB) = "15G" ∧
    validate_partition_sizes (some (.int (500 * BYTES_PER_GB)))
      [{ name := "macOS A", volume := "Install macOS A",
         size_bytes := some (.int (12 * BYTES_PER_GB)) },
       { name := "macOS B", volume := "Install macOS B",
         size_bytes := some (.int (14 * BYTES_PER_GB)) }] = .ok ∧
    partition_disk_model "/dev/disk2" (some (.int (500 * BYTES_PER_GB)))
      [{ name := "macOS A", volume := "Install macOS A",
         size_bytes := some (.int (12 * BYTES_PER_GB)) },
       { name := "macOS B", volume := "Install macOS B",
         size_bytes := some (.int (14 * BYTES_PER_GB)) }] =
      .issued ["diskutil", "partitionDisk", "/dev/disk2", "GPT",
               "JHFS+", "Install macOS A", "13G",
               "JHFS+", "Install macOS B", "0b"] := by
  have hv : validate_partition_sizes (some (.int (500 * BYTES_PER_GB)))
      [{ name := "macOS A", volume := "Install macOS A",
         size_bytes := some (.int (12 * BYTES_PER_GB)) },
       { name := "macOS B", volume := "Install macOS B",
         size_bytes := some (.int (14 * BYTES_PER_GB)) }] = .ok := by
    decide
  have hargs : partitionArgs
      [{ name := "macOS A", volume := "Install macOS A",
         size_bytes := some (.int (12 * BYTES_PER_GB)) },
       { name := "macOS B", volume := "Install macOS B",
         size_bytes := some (.int (14 * BYTES_PER_GB)) }] =
      .ok ["JHFS+", "Install macOS A", format_size_for_diskutil (12 * BYTES_PER_GB),
           "JHFS+", "Install macOS B", "0b"] := rfl
  rw [format_12GB] at hargs
  refine ⟨format_12GB, format_14GB, hv, ?_⟩
  simp [partition_disk_model, hv, hargs]

/-! ## Lemmas: `validate_partition_sizes` -/

theorem sumFixedPartitions_map (sizes : List Nat) :
    sumFixedPartitions (sizes.map mkInst) =
      .ok ((sizes.map calculate_partition_size_bytes).sum) := by
  induction sizes with
  | nil => rfl
  | cons s rest ih => simp [sumFixedPartitions, mkInst, getIntField, ih]

theorem validate_map_int (D : Nat) (sizes : List Nat) :
    validate_partition_sizes (some (.int D)) (sizes.map mkInst) =
      if D < ((sizes.map calculate_partition_size_bytes).dropLast).sum then
        .sizeError (((sizes.map calculate_partition_size_bytes).dropLast).sum) D
      else .ok := by
  unfold validate_partition_sizes
  rw [← List.map_dropLast, sumFixedPartitions_map, List.map_dropLast]
  simp [getIntField, Option.getD]

theorem partitionArgs_map_isOk (sizes : List Nat) :
    ∃ args, partitionArgs (sizes.map mkInst) = .ok args := by
  induction sizes with
  | nil => exact ⟨[], rfl⟩
  | cons s rest ih =>
    cases rest with
    | nil => exact ⟨["JHFS+", "", "0b"], rfl⟩
    | cons t ts =>
      obtain ⟨args, h⟩ := ih
      simp only [List.map_cons, mkInst] at h
      refine ⟨["JHFS+", "", format_size_for_diskutil s] ++ args, ?_⟩
      simp [partitionArgs, mkInst, getIntField, h]

/-- Claim C2: with successfully retrieved, well-formed disk metadata,
`validate_partition_sizes` reports the sizing error exactly when the summed
`calculate_partition_size_bytes` of every installer but the last strictly
exceeds the disk's `TotalSize`; an exact fit passes, and a single-installer
list always passes regardless of capacity. -/
theorem c2_validate_sizes (D : Nat) (sizes : List Nat) :
    ((∃ n a, validate_partition_sizes (some (.int D)) (sizes.map mkInst) = .sizeError n a) ↔
      D < ((sizes.map calculate_partition_size_bytes).dropLast).sum) ∧
    (((sizes.map calculate_partition_size_bytes).dropLast).sum ≤ D →
      validate_partition_sizes (some (.int D)) (sizes.map mkInst) = .ok) ∧
    (∀ s : Nat, validate_partition_sizes (some (.int D)) [mkInst s] = .ok) := by
  refine ⟨?_, ?_, ?_⟩
  · rw [validate_map_int]
    by_cases h : D < ((sizes.map calculate_partition_size_bytes).dropLast).sum
    · simp [h]
    · simp [h]
  · intro h
    rw [validate_map_int, if_neg (by omega)]
  · intro s
    show validate_partition_sizes (some (.int D)) ([s].map mkInst) = .ok
    rw [validate_map_int]
    simp

/-- Witness for C2: a 500 GB disk accepts the 12 GB + 14 GB installer pair
(only the 13 GB fixed partition counts). -/
theorem c2_witness :
    validate_partition_sizes (some (.int (500 * BYTES_PER_GB)))
      ([12 * BYTES_PER_GB, 14 * BYTES_PER_GB].map mkInst) = .ok :=
  (c2_validate_sizes (500 * BYTES_PER_GB) [12 * BYTES_PER_GB, 14 * BYTES_PER_GB]).2.1
    (by decide)

theorem sumFixedPartitions_append_error (pre : List MInstaller) (bad : MInstaller)
    (rest : List MInstaller) (e : PyExc)
    (hpre : ∀ i ∈ pre, ∃ n, i.size_bytes = some (.int n))
    (hbad : getIntField bad.size_bytes = .error e) :
    sumFixedPartitions (pre ++ bad :: rest) = .error e := by
  induction pre with
  | nil => simp [sumFixedPartitions, hbad]
  | cons p ps ih =>
    obtain ⟨n, hn⟩ := hpre p (by simp)
    have ih2 := ih fun i hi => hpre i (List.mem_cons_of_mem _ hi)
    simp [sumFixedPartitions, hn, getIntField, ih2]

theorem partitionArgs_append_error (pre : List MInstaller) (bad : MInstaller)
    (post : List MInstaller) (e : PyExc) (hpost : post ≠ [])
    (hpre : ∀ i ∈ pre, ∃ n, i.size_bytes = some (.int n))
    (hbad : getIntField bad.size_bytes = .error e) :
    partitionArgs (pre ++ bad :: post) = .error e := by
  induction pre with
  | nil =>
    cases post with
    | nil => exact absurd rfl hpost
    | cons q qs => simp [partitionArgs, hbad]
  | cons p ps ih =>
    obtain ⟨n, hn⟩ := hpre p (by simp)
    have ih2 : partitionArgs (ps ++ bad :: post) = .error e :=
      ih fun i hi => hpre i (List.mem_cons_of_mem _ hi)
    obtain ⟨x, xs, hxs⟩ : ∃ x xs, ps ++ bad :: post = x :: xs := by
      cases hsh : ps ++ bad :: post with
      | nil => simp at hsh
      | cons x xs => exact ⟨x, xs, rfl⟩
    rw [List.cons_append, hxs]
    rw [hxs] at ih2
    simp [partitionArgs, hn, getIntField, ih2]

theorem validate_append_error (totalSize : Option PyVal) (pre : List MInstaller)
    (bad : MInstaller) (post : List MInstaller) (e : PyExc) (hpost : post ≠ [])
    (hpre : ∀ i ∈ pre, ∃ n, i.size_bytes = some (.int n))
    (hbad : getIntField bad.size_bytes = .error e) :
    validate_partition_sizes totalSize (pre ++ bad :: post) = .skipped e := by
  unfold validate_partition_sizes
  rw [List.dropLast_append_cons, List.dropLast_cons_of_ne_nil hpost,
    sumFixedPartitions_append_error pre bad post.dropLast e hpre hbad]

/-- Claim C10 (counterexample): when the first (non-last) installer's
`size_bytes` key is missing, `validate_partition_sizes` does swallow the
`KeyError` and return normally, but the run does NOT proceed to the
destructive partition command: `partition_disk` re-raises the same `KeyError`
while building the command, before anything is issued. -/
theorem c10_counterexample :
    validate_partition_sizes (some (.int 1000000000))
      [{ name := "A", volume := "V1", size_bytes := none }, mkInst 1000] =
        .skipped .keyError ∧
    partition_disk_model "/dev/disk9" (some (.int 1000000000))
      [{ name := "A", volume := "V1", size_bytes := none }, mkInst 1000] =
        .raised .keyError := by
  decide

/-- Claim C10 (amended): a `KeyError`/`TypeError` raised while
`validate_partition_sizes` runs is caught, logged as a warning, and the
function returns normally.  When the malformed datum is the disk's
`TotalSize` (all installer sizes well-formed), the run then proceeds to issue
the destructive partition command with no capacity check at all; when any
non-last installer has a missing or malformed `size_bytes` (the earlier
installers being well-formed, so it is the one whose access raises), the same
error is re-raised uncaught by `partition_disk` while building the command,
before the destructive command is issued. -/
theorem c10_swallowed_validation (target tval : String) (sizes : List Nat) :
    (validate_partition_sizes (some (.str tval)) (sizes.map mkInst) =
        .skipped .typeError ∧
      ∃ args, partition_disk_model target (some (.str tval)) (sizes.map mkInst) =
        .issued (["diskutil", "partitionDisk", target, "GPT"] ++ args)) ∧
    (∀ (totalSize : Option PyVal) (pre : List MInstaller) (bad : MInstaller)
        (post : List MInstaller) (e : PyExc),
      post ≠ [] →
      (∀ i ∈ pre, ∃ n, i.size_bytes = some (.int n)) →
      getIntField bad.size_bytes = .error e →
      validate_partition_sizes totalSize (pre ++ bad :: post) = .skipped e ∧
      partition_disk_model target totalSize (pre ++ bad :: post) = .raised e) := by
  constructor
  · have hv : validate_partition_sizes (some (.str tval)) (sizes.map mkInst) =
        .skipped .typeError := by
      unfold validate_partition_sizes
      rw [← List.map_dropLast, sumFixedPartitions_map]
      simp [getIntField, Option.getD]
    obtain ⟨args, hargs⟩ := partitionArgs_map_isOk sizes
    exact ⟨hv, args, by simp [partition_disk_model, hv, hargs]⟩
  · intro totalSize pre bad post e hpost hpre hbad
    have hv := validate_append_error totalSize pre bad post e hpost hpre hbad
    have hp := partitionArgs_append_error pre bad post e hpost hpre hbad
    exact ⟨hv, by simp [partition_disk_model, hv, hp]⟩

/-- Witness for the amended C10 theorem: a malformed (non-int) `size_bytes` on
the middle installer of three gives a swallowed `TypeError` in validation and
an uncaught `TypeError` in `partition_disk`. -/
theorem c10_witness :
    validate_partition_sizes (some (.int 77))
      ([mkInst 5] ++ { name := "B", volume := "V2", size_bytes := some (.str "oops") } ::
        [mkInst 9]) = .skipped .typeError ∧
    partition_disk_model "/dev/disk8" (some (.int 77))
      ([mkInst 5] ++ { name := "B", volume := "V2", size_bytes := some (.str "oops") } ::
        [mkInst 9]) = .raised .typeError :=
  (c10_swallowed_validation "/dev/disk8" "" []).2
    (some (.int 77)) [mkInst 5]
    { name := "B", volume := "V2", size_bytes := some (.str "oops") }
    [mkInst 9] .typeError (by simp)
    (by intro i hi; simp at hi; subst hi; exact ⟨5, rfl⟩) rfl

/-! ## Lemmas: the in-use pattern search -/

theorem matchInUseAt_literal (cs : List Char) (r : List Char × List Char)
    (h : matchInUseAt cs = some r) : inUseLiteral.isPrefixOf cs = true := by
  by_cases hp : inUseLiteral.isPrefixOf cs = true
  · exact hp
  · unfold matchInUseAt at h
    rw [if_neg hp] at h
    exact absurd h (by simp)

theorem searchInUse_some_contains (cs : List Char) (r : List Char × List Char)
    (h : searchInUse cs = some r) : containsSub cs inUseLiteral = true := by
  induction cs with
  | nil => simp [searchInUse] at h
  | cons c t ih =>
    unfold searchInUse at h
    unfold containsSub
    cases hm : matchInUseAt (c :: t) with
    | some r2 =>
      rw [matchInUseAt_literal _ _ hm]
      simp
    | none =>
      rw [hm] at h
      rw [ih h]
      simp

theorem containsSub_of_sub (hay needle needle2 : List Char)
    (hpre : needle2 <+: needle) (h : containsSub hay needle = true) :
    containsSub hay needle2 = true := by
  induction hay with
  | nil =>
    unfold containsSub at h ⊢
    simp only [List.isEmpty_iff] at h ⊢
    subst h
    exact List.prefix_nil.mp hpre
  | cons c t ih =>
    unfold containsSub at h ⊢
    have hiff : ∀ u v : List Char, u.isPrefixOf v = true ↔ u <+: v := fun u v =>
      List.isPrefixOf_iff_prefix
    rcases Bool.or_eq_true_iff.mp h with h1 | h2
    · have h3 : needle2 <+: (c :: t) := hpre.trans ((hiff needle (c :: t)).mp h1)
      rw [(hiff needle2 (c :: t)).mpr h3]
      simp
    · rw [ih h2]
      simp

theorem extract_none_of_not_contains (t : String)
    (h : pyContains t "in use by process" = false) :
    extract_process_info t = (none, none) := by
  unfold extract_process_info
  cases hs : searchInUse t.data with
  | none => rfl
  | some r =>
    exfalso
    have h18 := searchInUse_some_contains _ _ hs
    have h17 : containsSub t.data ("in use by process".data) = true :=
      containsSub_of_sub _ _ _ (by decide) h18
    rw [pyContains, h17] at h
    exact Bool.noConfusion h

/-- Claim C8 (counterexample): a text that does contain
`"in use by process 4821 (Finder)"` but has an earlier occurrence of the
pattern makes `re.search` return the leftmost match, so extraction yields
`("TextEdit", "7")` rather than `("Finder", "4821")`. -/
theorem c8_counterexample :
    pyContains
        "unmount failed: in use by process 7 (TextEdit), in use by process 4821 (Finder)"
        "in use by process 4821 (Finder)" = true ∧
    extract_process_info
        "unmount failed: in use by process 7 (TextEdit), in use by process 4821 (Finder)" =
      (some "TextEdit", some "7") := by
  constructor <;> decide

/-- Claim C8 (amended): on the text `"in use by process 4821 (Finder)"`
(whose leftmost pattern match is that very occurrence) extraction yields
process name `"Finder"` and PID `"4821"`; and for any text that does not even
contain the literal `"in use by process"` — in particular any text with no
occurrence of the pattern — it returns `(None, None)`. -/
theorem c8_extract_process_info (t : String) :
    extract_process_info "in use by process 4821 (Finder)" =
        (some "Finder", some "4821") ∧
    (pyContains t "in use by process" = false →
      extract_process_info t = (none, none)) :=
  ⟨by decide, extract_none_of_not_contains t⟩

/-- Witness for the amended C8 theorem on a pattern-free text. -/
theorem c8_witness :
    pyContains "Couldn't unmount: resource busy" "in use by process" = false ∧
    extract_process_info "Couldn't unmount: resource busy" = (none, none) :=
  ⟨by decide, (c8_extract_process_info "Couldn't unmount: resource busy").2 (by decide)⟩

/-- Claim C6 (counterexample): a failure whose text contains
`"Couldn't unmount"` does not match the `"in use by process NAME (PID)"`
pattern at all, yet `unmount_disk` raises the fatal `CommandError` instead of
downgrading to a warning. -/
theorem c6_counterexample :
    searchInUse (unmountErrorMsg (some "Couldn't unmount disk1")
        ["diskutil", "unmountDisk", "/dev/disk2"] 1).data = none ∧
    unmount_disk_on_failure "/dev/disk2" (some "Couldn't unmount disk1")
        ["diskutil", "unmountDisk", "/dev/disk2"] 1 ≠ .warnedAndContinued := by
  constructor <;> decide

/-- Claim C6 (amended): on a failed unmount, `unmount_disk` raises the fatal
`CommandError` exactly when the combined error text contains the substring
`"in use by process"` or the substring `"Couldn't unmount"`; every text the
full PID pattern matches does contain the former, so pattern matches still
raise, but the raise condition is the substring test, not the pattern. -/
theorem c6_unmount_raises_iff (target : String) (stderrText : Option String)
    (cmd : List String) (rc : Int) :
    (unmount_disk_on_failure target stderrText cmd rc ≠ .warnedAndContinued ↔
      (pyContains (unmountErrorMsg stderrText cmd rc) "in use by process" = true ∨
       pyContains (unmountErrorMsg stderrText cmd rc) "Couldn't unmount" = true)) ∧
    ((searchInUse (unmountErrorMsg stderrText cmd rc).data).isSome = true →
      unmount_disk_on_failure target stderrText cmd rc ≠ .warnedAndContinued) := by
  constructor
  · unfold unmount_disk_on_failure
    by_cases hc : (pyContains (unmountErrorMsg stderrText cmd rc) "in use by process" ||
        pyContains (unmountErrorMsg stderrText cmd rc) "Couldn't unmount") = true
    · rw [if_pos hc]
      simp only [Bool.or_eq_true] at hc
      exact iff_of_true (by simp) hc
    · rw [if_neg hc]
      simp only [Bool.or_eq_true] at hc
      exact iff_of_false (by simp) hc
  · intro hs
    obtain ⟨r, hr⟩ := Option.isSome_iff_exists.mp hs
    have h18 := searchInUse_some_contains _ _ hr
    have h17 : containsSub (unmountErrorMsg stderrText cmd rc).data
        ("in use by process".data) = true :=
      containsSub_of_sub _ _ _ (by decide) h18
    unfold unmount_disk_on_failure
    rw [if_pos (by rw [pyContains, h17]; simp)]
    simp

/-- Witness for the amended C6 theorem: a text the pattern does match makes
`unmount_disk` raise. -/
theorem c6_witness :
    (searchInUse (unmountErrorMsg (some "in use by process 4821 (Finder)")
        ["diskutil", "unmountDisk", "/dev/disk3"] 1).data).isSome = true ∧
    unmount_disk_on_failure "/dev/disk3" (some "in use by process 4821 (Finder)")
        ["diskutil", "unmountDisk", "/dev/disk3"] 1 ≠ .warnedAndContinued :=
  ⟨by decide,
    (c6_unmount_raises_iff "/dev/disk3" (some "in use by process 4821 (Finder)")
      ["diskutil", "unmountDisk", "/dev/disk3"] 1).2 (by decide)⟩

/-! ## Lemmas: the progress bar -/

theorem parse_line_percent_mono (st : PBState) (line : String) (rules : List Rule) :
    st.percent ≤ (st.parse_line line rules).percent := by
  induction rules with
  | nil => exact le_refl _
  | cons r rest ih =>
    unfold PBState.parse_line
    by_cases h : pyContains (pyLower line) r.keyword = true
    · rw [if_pos h]
      exact Nat.le_max_left _ _
    · rw [if_neg h]
      exact ih

theorem parse_line_percent_le (st : PBState) (line : String) (rules : List Rule)
    (hst : st.percent ≤ 100) (hr : ∀ r ∈ rules, r.percent ≤ 100) :
    (st.parse_line line rules).percent ≤ 100 := by
  induction rules with
  | nil => exact hst
  | cons r rest ih =>
    unfold PBState.parse_line
    by_cases h : pyContains (pyLower line) r.keyword = true
    · rw [if_pos h]
      exact max_le hst (hr r (by simp))
    · rw [if_neg h]
      exact ih fun q hq => hr q (by simp [hq])

theorem timeBasedPercent_le_90 (e te : Nat) : timeBasedPercent e te ≤ 90 :=
  min_le_right _ _

theorem timeBasedPercent_mono (te : Nat) {e e' : Nat} (h : e ≤ e') :
    timeBasedPercent e te ≤ timeBasedPercent e' te :=
  min_le_min (Nat.div_le_div_right (Nat.mul_le_mul_right _ h)) le_rfl

theorem shownPercent_mono {st st' : PBState} {e e' : Nat} (te : Nat)
    (hp : st.percent ≤ st'.percent) (he : e ≤ e') :
    shownPercent st e te ≤ shownPercent st' e' te := by
  unfold shownPercent
  by_cases h1 : st.percent < 90 ∧ 5 < e
  · rw [if_pos h1]
    by_cases h2 : st'.percent < 90 ∧ 5 < e'
    · rw [if_pos h2]
      exact max_le_max hp (timeBasedPercent_mono te he)
    · rw [if_neg h2]
      rcases Nat.lt_or_ge st'.percent 90 with h3 | h3
      · exact absurd ⟨h3, lt_of_lt_of_le h1.2 he⟩ h2
      · exact max_le hp ((timeBasedPercent_le_90 e te).trans h3)
  · rw [if_neg h1]
    by_cases h2 : st'.percent < 90 ∧ 5 < e'
    · rw [if_pos h2]
      exact hp.trans (Nat.le_max_left _ _)
    · rw [if_neg h2]
      exact hp

theorem shownPercent_le_100 {st : PBState} (h : st.percent ≤ 100) (e te : Nat) :
    shownPercent st e te ≤ 100 := by
  unfold shownPercent
  by_cases h1 : st.percent < 90 ∧ 5 < e
  · rw [if_pos h1]
    exact max_le h ((timeBasedPercent_le_90 e te).trans (by norm_num))
  · rw [if_neg h1]
    exact h

theorem chain_le_cons_of_le {a b : Nat} {l : List Nat} (hba : b ≤ a)
    (h : List.Chain' (· ≤ ·) (a :: l)) : List.Chain' (· ≤ ·) (b :: l) := by
  cases l with
  | nil => simp
  | cons x xs =>
    rw [List.chain'_cons] at h ⊢
    exact ⟨le_trans hba h.1, h.2⟩

theorem runPB_chain (rules : List Rule) (te : Nat) :
    ∀ (evs : List PBEvent) (st : PBState) (e0 : Nat),
      List.Chain' (· ≤ ·) (e0 :: tickTimes evs) →
      List.Chain' (· ≤ ·) (shownPercent st e0 te :: runPB rules te st evs) := by
  intro evs
  induction evs with
  | nil =>
    intro st e0 h
    simp [runPB]
  | cons ev rest ih =>
    intro st e0 h
    cases ev with
    | line s =>
      have h2 := ih (st.parse_line s rules) e0 (by simpa [tickTimes] using h)
      have hmono : shownPercent st e0 te ≤
          shownPercent (st.parse_line s rules) e0 te :=
        shownPercent_mono te (parse_line_percent_mono st s rules) le_rfl
      simpa [runPB] using chain_le_cons_of_le hmono h2
    | tick e =>
      rw [tickTimes] at h
      rw [List.chain'_cons] at h
      have h3 := ih st e h.2
      have hmono : shownPercent st e0 te ≤ shownPercent st e te :=
        shownPercent_mono te le_rfl h.1
      simpa [runPB] using List.Chain'.cons hmono h3

theorem runPB_le_100 (rules : List Rule) (te : Nat)
    (hrules : ∀ r ∈ rules, r.percent ≤ 100) :
    ∀ (evs : List PBEvent) (st : PBState), st.percent ≤ 100 →
      ∀ p ∈ runPB rules te st evs, p ≤ 100 := by
  intro evs
  induction evs with
  | nil =>
    intro st h p hp
    simp [runPB] at hp
  | cons ev rest ih =>
    intro st h p hp
    cases ev with
    | line s =>
      exact ih (st.parse_line s rules) (parse_line_percent_le st s rules h hrules) p
        (by simpa [runPB] using hp)
    | tick e =>
      rw [runPB] at hp
      rcases List.mem_cons.mp hp with h1 | h1
      · subst h1
        exact shownPercent_le_100 h e te
      · exact ih st h p h1

/-- Claim C4 (counterexample): a matched rule with a lower percent than the
current one still overwrites the stored message (`update` only applies `max`
to the percent); the claim asserts both fields stay unchanged. -/
theorem c4_counterexample :
    PBState.parse_line { percent := 80, message := "Formatting" } "Unmounting disk2"
        [{ keyword := "unmount", percent := 10, message := "Unmount msg" }] =
      { percent := 80, message := "Unmount msg" } ∧
    ("Unmount msg" : String) ≠ "Formatting" := by
  constructor <;> decide

/-- Claim C4 (amended): `parse_line` fires only the first rule whose keyword
occurs in the lower-cased line; on that match the percent becomes
`max(current, rule percent)` — so it updates only when the rule's percent is
higher — while the message is always set to the rule's message, even when the
rule's percent is lower; with no matching rule the state is unchanged. -/
theorem c4_parse_line_first_match (st : PBState) (line : String) :
    (∀ rules : List Rule,
      (∀ p ∈ rules, pyContains (pyLower line) p.keyword = false) →
      st.parse_line line rules = st) ∧
    (∀ (pre post : List Rule) (r : Rule),
      (∀ p ∈ pre, pyContains (pyLower line) p.keyword = false) →
      pyContains (pyLower line) r.keyword = true →
      st.parse_line line (pre ++ r :: post) =
        { percent := max st.percent r.percent, message := r.message }) := by
  constructor
  · intro rules h
    induction rules with
    | nil => rfl
    | cons p rest ih =>
      unfold PBState.parse_line
      rw [if_neg (by rw [h p (by simp)]; simp)]
      exact ih fun q hq => h q (by simp [hq])
  · intro pre post r hpre hr
    induction pre with
    | nil =>
      simp only [List.nil_append]
      unfold PBState.parse_line
      rw [if_pos hr]
      rfl
    | cons p ps ih =>
      simp only [List.cons_append]
      unfold PBState.parse_line
      rw [if_neg (by rw [hpre p (by simp)]; simp)]
      exact ih fun q hq => hpre q (by simp [hq])

/-- Witness for the amended C4 theorem: the second rule fires after a
non-matching first rule and lifts the percent from 20 to 60. -/
theorem c4_witness :
    PBState.parse_line { percent := 20, message := "Start" } "Formatting partition 1"
        ([{ keyword := "unmount", percent := 10, message := "U" }] ++
          { keyword := "formatting", percent := 60, message := "F" } :: []) =
      { percent := max 20 60, message := "F" } :=
  (c4_parse_line_first_match { percent := 20, message := "Start" }
      "Formatting partition 1").2
    [{ keyword := "unmount", percent := 10, message := "U" }] []
    { keyword := "formatting", percent := 60, message := "F" } (by decide) (by decide)

/-- Claim C5: across any interleaving of output lines (rule-based updates,
each rule percent at most 100, as in every rule set of the repository) and
animation refreshes at non-decreasing elapsed times, the displayed progress
percent never decreases and every displayed value — in particular the final
one — is at most 100. -/
theorem c5_progress_monotone (rules : List Rule) (te : Nat) (evs : List PBEvent)
    (hrules : ∀ r ∈ rules, r.percent ≤ 100)
    (hticks : List.Chain' (· ≤ ·) (tickTimes evs)) :
    List.Chain' (· ≤ ·) (runPB rules te pbInit evs) ∧
    ∀ p ∈ runPB rules te pbInit evs, p ≤ 100 := by
  constructor
  · have h0 : List.Chain' (· ≤ ·) (0 :: tickTimes evs) := by
      cases htt : tickTimes evs with
      | nil => simp
      | cons x xs =>
        rw [List.chain'_cons]
        exact ⟨Nat.zero_le x, htt ▸ hticks⟩
    exact (runPB_chain rules te evs pbInit 0 h0).tail
  · exact runPB_le_100 rules te hrules evs pbInit (by norm_num [pbInit])

/-- Witness for C5 on a concrete run mixing ticks and matched lines. -/
theorem c5_witness :
    List.Chain' (· ≤ ·)
      (runPB [{ keyword := "unmount", percent := 10, message := "U" },
              { keyword := "finished", percent := 100, message := "Done" }] 60 pbInit
        [.tick 3, .line "Unmounting disk", .tick 10, .line "Finished", .tick 20]) ∧
    ∀ p ∈ runPB [{ keyword := "unmount", percent := 10, message := "U" },
              { keyword := "finished", percent := 100, message := "Done" }] 60 pbInit
        [.tick 3, .line "Unmounting disk", .tick 10, .line "Finished", .tick 20],
      p ≤ 100 :=
  c5_progress_monotone _ 60 _ (by decide)
    (by simp [tickTimes, List.chain'_cons])

/-- Claim C9 (counterexample): when `output_lines` already holds a line
consumed by the concurrent reader, the `if not output_lines:` guard skips the
drain entirely, so a buffered trailing diagnostic line is lost — the claim
asserts it would be appended. -/
theorem c9_counterexample :
    read_remaining_output (some "trailing diagnostic") ["earlier line"] =
        ["earlier line"] ∧
    "trailing diagnostic" ∉
      read_remaining_output (some "trailing diagnostic") ["earlier line"] := by
  constructor <;> decide

/-- Claim C9 (amended): the bounded final read runs only when `output_lines`
is still empty; in that case every non-empty stripped line of the drained
text is appended, while a non-empty `output_lines` is returned untouched and
any still-buffered trailing lines are dropped. -/
theorem c9_drain_only_when_empty :
    (∀ (remaining : Option String) (lines : List String), lines ≠ [] →
      read_remaining_output remaining lines = lines) ∧
    (∀ (rem : String) (l : List Char), l ∈ splitNL rem.data → stripChars l ≠ [] →
      String.mk (stripChars l) ∈ read_remaining_output (some rem) []) := by
  constructor
  · intro remaining lines h
    unfold read_remaining_output
    rw [if_neg (by simpa [List.isEmpty_iff] using h)]
  · intro rem l hl hs
    by_cases hrem : rem = ""
    · subst hrem
      simp [splitNL] at hl
      subst hl
      exact absurd rfl hs
    · have hre : read_remaining_output (some rem) [] =
          ((((splitNL rem.data).map stripChars).filter (fun l => l ≠ [])).map String.mk) := by
        unfold read_remaining_output
        rw [if_pos (show ([] : List String).isEmpty = true from rfl)]
        show (if rem = "" then ([] : List String)
          else [] ++ (((splitNL rem.data).map stripChars).filter
            (fun l => l ≠ [])).map String.mk) = _
        rw [if_neg hrem]
        simp
      rw [hre]
      exact List.mem_map_of_mem _
        (List.mem_filter.mpr ⟨List.mem_map_of_mem _ hl, by simpa using hs⟩)

/-- Witness for the amended C9 theorem: the guard skips a non-empty list, and
an empty list receives the stripped trailing line. -/
theorem c9_witness :
    read_remaining_output (some "lost") ["x"] = ["x"] ∧
    String.mk (stripChars (" b ".data)) ∈
      read_remaining_output (some "a\n b ") [] :=
  ⟨c9_drain_only_when_empty.1 (some "lost") ["x"] (by decide),
   c9_drain_only_when_empty.2 "a\n b " (" b ".data) (by decide) (by decide)⟩

/-- Claim C1 (counterexample): on a 10 GB disk with a 12 GB first installer,
the run unmounts FIRST, validates second, and — because
`partitioning_started` was already set before `partition_disk` ran — the
sizing `ValueError` triggers the `restore_disk` cleanup; the claim asserts
validation precedes any unmount and that a sizing failure performs no
cleanup. -/
theorem c1_counterexample :
    main_run "/dev/disk2" (some (.int (10 * BYTES_PER_GB)))
        [mkInst (12 * BYTES_PER_GB), mkInst (1 * BYTES_PER_GB)] true false =
      [.unmountDiskCall,
       .validationRan (.sizeError (13 * BYTES_PER_GB) (10 * BYTES_PER_GB)),
       .restoreDiskCall] := by
  decide

/-- Claim C1 (amended): in every confirmed run the unmount happens first and
the size validation second, so validation still precedes the destructive
partition command (which appears only after the validation event); a sizing
failure aborts before any partition command is issued, but the error handler
then performs the `restore_disk` cleanup because `partitioning_started` was
set before `partition_disk` was called. -/
theorem c1_order_amended (target : String) (totalSize : Option PyVal)
    (installers : List MInstaller) :
    (∃ rest, main_run target totalSize installers true false =
      .unmountDiskCall ::
        .validationRan (validate_partition_sizes totalSize installers) :: rest) ∧
    (∀ n a, validate_partition_sizes totalSize installers = .sizeError n a →
      main_run target totalSize installers true false =
        [.unmountDiskCall, .validationRan (.sizeError n a), .restoreDiskCall]) ∧
    (∀ args, partitionArgs installers = .ok args →
      (∀ n a, validate_partition_sizes totalSize installers ≠ .sizeError n a) →
      main_run target totalSize installers true false =
        [.unmountDiskCall,
         .validationRan (validate_partition_sizes totalSize installers),
         .partitionCmd (["diskutil", "partitionDisk", target, "GPT"] ++ args),
         .createMediaCall]) := by
  refine ⟨⟨_, rfl⟩, ?_, ?_⟩
  · intro n a h
    unfold main_run
    simp [h]
  · intro args hargs hne
    unfold main_run
    cases hv : validate_partition_sizes totalSize installers with
    | sizeError n a => exact absurd hv (hne n a)
    | ok => simp [hv, hargs]
    | skipped e => simp [hv, hargs]

/-- Witness for the amended C1 theorem: a 1 GB disk with a 2 GB first
installer fails validation after the unmount and ends in the restore
cleanup. -/
theorem c1_witness :
    main_run "/dev/disk5" (some (.int BYTES_PER_GB))
        [mkInst (2 * BYTES_PER_GB), mkInst BYTES_PER_GB] true false =
      [.unmountDiskCall,
       .validationRan (.sizeError (3 * BYTES_PER_GB) BYTES_PER_GB),
       .restoreDiskCall] :=
  (c1_order_amended "/dev/disk5" (some (.int BYTES_PER_GB))
      [mkInst (2 * BYTES_PER_GB), mkInst BYTES_PER_GB]).2.1
    (3 * BYTES_PER_GB) BYTES_PER_GB (by decide)

end Multiboot
